import Mathlib

/-!
Verification of the DashboardLVMH repository against its specification.

The repository's source (src/app.py) contains the data-cleaning and
presentation layer (clean_name, parse_heure, load_data's merge logic),
which is embedded below from the source. The time-series
technical-analysis engine described by the specification (OrderedSeries,
RollingStatistics, ExponentialSmoother, VolatilityBandIndicator,
MomentumOscillator, TrendOscillator, PeriodAggregator) has no
implementation under src/, so those components are modelled from the
specification's component contracts and settled against that model.

Real numbers of the engine are modelled as rationals so that every
operation is exact and executable; the square root used by the rolling
standard deviation is not rational, so it is abstracted as a function
parameter (the properties claimed of the standard-deviation series hold
for every choice of that function).
-/

/- ===================== Engine: rolling statistics ===================== -/

/-- Modelled from the spec: the trailing window of `w` observations ending at
index `i` (spec 4.1); the engine's RollingStatistics implementation is not
present under src/. -/
def windowAt (w i : ℕ) (xs : List ℚ) : List ℚ := (xs.drop (i + 1 - w)).take w

/-- Modelled from the spec: RollingStatistics rolling mean over a trailing
window of `w` observations (spec 4.1); positions with index `< w-1` carry the
explicit undefined marker `none`. -/
def rollingMean (w : ℕ) (xs : List ℚ) : List (Option ℚ) :=
  (List.range xs.length).map fun i =>
    if w ≤ i + 1 then some ((windowAt w i xs).sum / (w : ℚ)) else none

/-- Modelled from the spec: population variance of a list of observations
(spec 4.1, no Bessel correction). -/
def popVar (l : List ℚ) : ℚ :=
  ((l.map (fun x => (x - l.sum / (l.length : ℚ)) ^ 2)).sum) / (l.length : ℚ)

/-- Modelled from the spec: RollingStatistics rolling population variance over
the same trailing window as the mean (spec 4.1). -/
def rollingVar (w : ℕ) (xs : List ℚ) : List (Option ℚ) :=
  (List.range xs.length).map fun i =>
    if w ≤ i + 1 then some (popVar (windowAt w i xs)) else none

/-- Modelled from the spec: rolling standard deviation, the square root of the
rolling population variance (spec 4.1). The numeric square root is abstracted
as the parameter `sq`, since an exact square root does not exist on rationals;
every property claimed of this series holds for every choice of `sq`. -/
def rollingStd (sq : ℚ → ℚ) (w : ℕ) (xs : List ℚ) : List (Option ℚ) :=
  (rollingVar w xs).map (Option.map sq)

/-- The per-index definedness predicate of an indicator series: the element at
index `i` exists and is a defined value rather than the undefined marker. -/
def definedAt (s : List (Option ℚ)) (i : ℕ) : Prop := ∃ q, s[i]? = some (some q)

/- ===================== Engine: exponential smoothing ===================== -/

/-- Modelled from the spec: the smoothing factor `α = 2/(n+1)` of the
ExponentialSmoother for span `n` (spec 4.2). -/
def emaAlpha (n : ℕ) : ℚ := 2 / ((n : ℚ) + 1)

/-- Modelled from the spec: the tail of the exponential smoothing recurrence
`α·current + (1-α)·previous` after the seed (spec 4.2). -/
def emaFrom (a : ℚ) : ℚ → List ℚ → List ℚ
  | _, [] => []
  | prev, x :: rest => (a * x + (1 - a) * prev) :: emaFrom a (a * x + (1 - a) * prev) rest

/-- Modelled from the spec: ExponentialSmoother over span `n`, seeded with the
first input value (spec 4.2); every position from index 0 is defined. -/
def ema (n : ℕ) : List ℚ → List ℚ
  | [] => []
  | x :: rest => x :: emaFrom (emaAlpha n) x rest

/-- Modelled from the spec: the ExponentialSmoother output viewed as an
IndicatorSeries; the recurrence seeds from the first observation, so no
element carries the undefined marker (spec 4.2). -/
def emaSeries (n : ℕ) (xs : List ℚ) : List (Option ℚ) := (ema n xs).map some

/- ===================== Engine: MACD ===================== -/

/-- Modelled from the spec: the MACD line, the element-wise difference of the
fast and slow exponential smooths of the closes (spec 4.6). -/
def macdLine (fast slow : ℕ) (xs : List ℚ) : List ℚ :=
  List.zipWith (fun a b => a - b) (ema fast xs) (ema slow xs)

/-- Modelled from the spec: the MACD signal line, a fresh smoother run over the
already-derived MACD line, seeded on its first value (spec 4.6). -/
def signalLine (fast slow sg : ℕ) (xs : List ℚ) : List ℚ :=
  ema sg (macdLine fast slow xs)

/- ===================== Engine: RSI ===================== -/

/-- Modelled from the spec: signed day-over-day deltas of the closes; the
element at position `j` of this list is `close[j+1] - close[j]` (spec 4.5,
step 1). -/
def deltas (xs : List ℚ) : List ℚ := List.zipWith (fun a b => a - b) xs.tail xs

/-- Modelled from the spec: the gain series `max(delta, 0)` (spec 4.5, step 2). -/
def gains (xs : List ℚ) : List ℚ := (deltas xs).map (fun d => max d 0)

/-- Modelled from the spec: the loss series `max(-delta, 0)` (spec 4.5, step 2). -/
def losses (xs : List ℚ) : List ℚ := (deltas xs).map (fun d => max (-d) 0)

/-- Modelled from the spec: trailing-`p` rolling mean of gains ending at close
index `i`; the deltas involved are those of close indices `i-p+1 .. i`
(spec 4.5, step 3). -/
def meanGain (p i : ℕ) (xs : List ℚ) : ℚ :=
  ((((gains xs).drop (i - p)).take p).sum) / (p : ℚ)

/-- Modelled from the spec: trailing-`p` rolling mean of losses ending at close
index `i` (spec 4.5, step 3). -/
def meanLoss (p i : ℕ) (xs : List ℚ) : ℚ :=
  ((((losses xs).drop (i - p)).take p).sum) / (p : ℚ)

/-- Modelled from the spec: the RSI value at a defined index: when the mean
loss is zero the output is defined as exactly 100 by explicit business rule;
otherwise `100 - 100/(1+rs)` with `rs = meanGain/meanLoss` (spec 4.5,
steps 4-5). -/
def rsiValue (p i : ℕ) (xs : List ℚ) : ℚ :=
  if meanLoss p i xs = 0 then 100
  else 100 - 100 / (1 + meanGain p i xs / meanLoss p i xs)

/-- Modelled from the spec: the MomentumOscillator (RSI) series over lookback
`p`; undefined for index `< p` (spec 4.5). -/
def rsi (p : ℕ) (xs : List ℚ) : List (Option ℚ) :=
  (List.range xs.length).map fun i =>
    if p ≤ i then some (rsiValue p i xs) else none

/- ===================== Engine: Bollinger bands ===================== -/

/-- Modelled from the spec: element-wise combination of two indicator values,
undefined when either input is undefined (spec 4.4, 7 UndefinedValue rule). -/
def combineBand (f : ℚ → ℚ → ℚ) : Option ℚ → Option ℚ → Option ℚ
  | some m, some s => some (f m s)
  | _, _ => none

/-- Modelled from the spec: the upper Bollinger band `shortMA + k·stddev`,
built from one RollingStatistics invocation of window `w` (spec 4.4). -/
def upperBand (k : ℚ) (sq : ℚ → ℚ) (w : ℕ) (xs : List ℚ) : List (Option ℚ) :=
  List.zipWith (combineBand (fun m s => m + k * s)) (rollingMean w xs) (rollingStd sq w xs)

/-- Modelled from the spec: the lower Bollinger band `shortMA - k·stddev`,
built from the same RollingStatistics invocation as the upper band
(spec 4.4). -/
def lowerBand (k : ℚ) (sq : ℚ → ℚ) (w : ℕ) (xs : List ℚ) : List (Option ℚ) :=
  List.zipWith (combineBand (fun m s => m - k * s)) (rollingMean w xs) (rollingStd sq w xs)

/- ===================== Engine: period aggregation ===================== -/

/-- Modelled from the spec: one PriceBar of the OrderedSeries, restricted to
the fields the PeriodAggregator consumes (spec 3, 4.7). -/
structure Bar where
  year : ℕ
  month : ℕ
  day : ℕ
  close : ℚ
deriving DecidableEq

/-- Modelled from the spec: the `(year, month)` grouping key of a bar
(spec 4.7). -/
def monthKey (b : Bar) : ℕ × ℕ := (b.year, b.month)

/-- Modelled from the spec: the group keys in first-seen chronological order
(spec 4.7). -/
def monthKeys (bars : List Bar) : List (ℕ × ℕ) :=
  bars.foldl (fun acc b => if monthKey b ∈ acc then acc else acc ++ [monthKey b]) []

/-- Modelled from the spec: the bars of one `(year, month)` group, in input
order (spec 4.7). -/
def monthBars (bars : List Bar) (k : ℕ × ℕ) : List Bar :=
  bars.filter (fun b => monthKey b = k)

/-- Modelled from the spec: the intra-month return of one group,
`(lastClose - firstClose) / firstClose * 100` over the chronologically first
and last bar of the month; reports an explicit ArithmeticDegenerateCase error
when the first close is zero (spec 4.7, 7). -/
def monthlyReturn (bars : List Bar) (k : ℕ × ℕ) : Except String ℚ :=
  match monthBars bars k with
  | [] => .error "InputValidationError: empty group"
  | f :: rest =>
    if f.close = 0 then .error "ArithmeticDegenerateCase: first close of month is zero"
    else .ok ((((f :: rest).getLast?.getD f).close - f.close) / f.close * 100)

/-- Modelled from the spec: the PeriodAggregator, pairing each group key, in
first-seen chronological order, with its intra-month return or its reported
error (spec 4.7). -/
def periodAggregate (bars : List Bar) : List ((ℕ × ℕ) × Except String ℚ) :=
  (monthKeys bars).map fun k => (k, monthlyReturn bars k)

/- ===================== Engine: input validation ===================== -/

/-- Modelled from the spec: strict chronological order of two bar dates
(spec 3: strictly ascending by date, no duplicate dates). -/
def dateLt (b c : Bar) : Prop :=
  b.year < c.year ∨ (b.year = c.year ∧ (b.month < c.month ∨ (b.month = c.month ∧ b.day < c.day)))

instance (b c : Bar) : Decidable (dateLt b c) :=
  inferInstanceAs (Decidable (b.year < c.year ∨
    (b.year = c.year ∧ (b.month < c.month ∨ (b.month = c.month ∧ b.day < c.day)))))

/-- Modelled from the spec: the OrderedSeries validity invariant: non-empty
and strictly ascending by date (spec 3, 7). -/
def validSeries (bars : List Bar) : Prop :=
  bars ≠ [] ∧ List.Chain' dateLt bars

instance (bars : List Bar) : Decidable (validSeries bars) :=
  inferInstanceAs (Decidable (bars ≠ [] ∧ List.Chain' dateLt bars))

/-- Modelled from the spec: RollingStatistics entry point with defensive input
validation: a non-positive window, an empty series or a series violating the
ascending-date invariant is rejected with a descriptive InputValidationError
before any computation (spec 7). -/
def checkedRolling (w : ℕ) (bars : List Bar) : Except String (List (Option ℚ)) :=
  if w = 0 then .error "InputValidationError: non-positive window"
  else if bars = [] then .error "InputValidationError: empty series"
  else if List.Chain' dateLt bars then .ok (rollingMean w (bars.map Bar.close))
  else .error "InputValidationError: dates not strictly ascending"

/-- Modelled from the spec: ExponentialSmoother entry point with defensive
input validation (spec 7). -/
def checkedEma (n : ℕ) (bars : List Bar) : Except String (List (Option ℚ)) :=
  if n = 0 then .error "InputValidationError: non-positive span"
  else if bars = [] then .error "InputValidationError: empty series"
  else if List.Chain' dateLt bars then .ok (emaSeries n (bars.map Bar.close))
  else .error "InputValidationError: dates not strictly ascending"

/-- Modelled from the spec: MomentumOscillator entry point with defensive
input validation (spec 7). -/
def checkedRsi (p : ℕ) (bars : List Bar) : Except String (List (Option ℚ)) :=
  if p = 0 then .error "InputValidationError: non-positive lookback"
  else if bars = [] then .error "InputValidationError: empty series"
  else if List.Chain' dateLt bars then .ok (rsi p (bars.map Bar.close))
  else .error "InputValidationError: dates not strictly ascending"

/-- Modelled from the spec: PeriodAggregator entry point with defensive input
validation (spec 7). -/
def checkedAggregate (bars : List Bar) : Except String (List ((ℕ × ℕ) × Except String ℚ)) :=
  if bars = [] then .error "InputValidationError: empty series"
  else if List.Chain' dateLt bars then .ok (periodAggregate bars)
  else .error "InputValidationError: dates not strictly ascending"

/- ===================== src/app.py: clean_name ===================== -/

/-- A Python value as seen by clean_name and parse_heure: either a str
(modelled as its list of characters) or any non-str value (None, numbers,
NaN, ...), which both functions treat uniformly through their
`isinstance(t, str)` guard. -/
inductive PyVal where
  | str : List Char → PyVal
  | nonstr : PyVal
deriving DecidableEq

/-- The apostrophe character, written by code point to keep source plain. -/
def apos : Char := Char.ofNat 39

/-- Lowercasing table of Python str.lower covering the ASCII letters and the
full Latin-1 capital letters (plus the capital sharp s and the OE ligature);
characters outside the table are unchanged, as in Python for case-less code
points. -/
def lowerTable : List (Char × Char) :=
  [('A', 'a'), ('B', 'b'), ('C', 'c'), ('D', 'd'), ('E', 'e'), ('F', 'f'),
   ('G', 'g'), ('H', 'h'), ('I', 'i'), ('J', 'j'), ('K', 'k'), ('L', 'l'),
   ('M', 'm'), ('N', 'n'), ('O', 'o'), ('P', 'p'), ('Q', 'q'), ('R', 'r'),
   ('S', 's'), ('T', 't'), ('U', 'u'), ('V', 'v'), ('W', 'w'), ('X', 'x'),
   ('Y', 'y'), ('Z', 'z'),
   ('À', 'à'), ('Á', 'á'), ('Â', 'â'), ('Ã', 'ã'), ('Ä', 'ä'), ('Å', 'å'),
   ('Æ', 'æ'), ('Ç', 'ç'), ('È', 'è'), ('É', 'é'), ('Ê', 'ê'), ('Ë', 'ë'),
   ('Ì', 'ì'), ('Í', 'í'), ('Î', 'î'), ('Ï', 'ï'), ('Ð', 'ð'), ('Ñ', 'ñ'),
   ('Ò', 'ò'), ('Ó', 'ó'), ('Ô', 'ô'), ('Õ', 'õ'), ('Ö', 'ö'), ('Ø', 'ø'),
   ('Ù', 'ù'), ('Ú', 'ú'), ('Û', 'û'), ('Ü', 'ü'), ('Ý', 'ý'), ('Þ', 'þ'),
   ('Ÿ', 'ÿ'), ('Œ', 'œ'), ('ẞ', 'ß')]

/-- Python str.lower on one character, via the lowering table. -/
def pyLower (c : Char) : Char :=
  match lowerTable.find? (fun q => q.1 = c) with
  | some q => q.2
  | none => c

/-- Transliteration table of the unidecode library covering the Latin-1
lowercase letters together with symbol entries whose transliterations contain
ASCII capitals as the library's own tables do (the numero sign gives "No", the
telephone sign gives "TEL"); such entries are what lets clean_name emit
uppercase output, since the lowering step runs before transliteration. -/
def uniTable : List (Char × List Char) :=
  [('à', ['a']), ('á', ['a']), ('â', ['a']), ('ã', ['a']), ('ä', ['a']),
   ('å', ['a']), ('æ', ['a', 'e']), ('ç', ['c']), ('è', ['e']), ('é', ['e']),
   ('ê', ['e']), ('ë', ['e']), ('ì', ['i']), ('í', ['i']), ('î', ['i']),
   ('ï', ['i']), ('ð', ['d']), ('ñ', ['n']), ('ò', ['o']), ('ó', ['o']),
   ('ô', ['o']), ('õ', ['o']), ('ö', ['o']), ('ø', ['o']), ('ù', ['u']),
   ('ú', ['u']), ('û', ['u']), ('ü', ['u']), ('ý', ['y']), ('þ', ['t', 'h']),
   ('ÿ', ['y']), ('ß', ['s', 's']), ('œ', ['o', 'e']),
   ('№', ['N', 'o']), ('℡', ['T', 'E', 'L'])]

/-- Models unidecode.unidecode on one character: the identity on ASCII, the
transliteration table on the modelled code points, and the empty string on
characters outside the modelled range (unidecode maps code points without a
table entry to the empty string). -/
def unidecodeChar (c : Char) : List Char :=
  if c.toNat ≤ 127 then [c]
  else
    match uniTable.find? (fun q => q.1 = c) with
    | some q => q.2
    | none => []

/-- Python str.strip: removes leading and trailing whitespace. -/
def pyStrip (s : List Char) : List Char :=
  ((s.dropWhile Char.isWhitespace).reverse.dropWhile Char.isWhitespace).reverse

/-- The replace of every hyphen by a space in clean_name (app.py line 128). -/
def replaceDash (s : List Char) : List Char :=
  s.map fun c => if c = '-' then ' ' else c

/-- The replace of every apostrophe by a space in clean_name (app.py
line 128). -/
def replaceApos (s : List Char) : List Char :=
  s.map fun c => if c = apos then ' ' else c

/-- The removal of every period in clean_name (app.py line 128). -/
def removeDots (s : List Char) : List Char :=
  s.filter fun c => c ≠ '.'

/-- Python str.replace(pat, "") for a fixed pattern: removes non-overlapping
occurrences left to right, scanning the remainder after each match. -/
def removeSub (pat : List Char) : List Char → List Char
  | [] => []
  | c :: rest =>
    if (c :: rest).take pat.length = pat ∧ pat ≠ [] then
      removeSub pat ((c :: rest).drop pat.length)
    else c :: removeSub pat rest
termination_by l => l.length
decreasing_by
  · simp only [List.length_drop, List.length_cons]
    have h1 : 1 ≤ pat.length := by
      rcases pat with _ | ⟨a, q⟩
      · simp at *
      · simp
    omega
  · simp

/-- The pattern "gare de " removed by clean_name (app.py line 129). -/
def gareDe : List Char := "gare de ".data

/-- The pattern "gare d " removed by clean_name (app.py line 129). -/
def gareD : List Char := "gare d ".data

/-- Python str.split() word splitting: the accumulator-based scan producing
the maximal whitespace-free non-empty words. -/
def splitAux : List Char → List Char → List (List Char)
  | [], acc => if acc = [] then [] else [acc.reverse]
  | c :: rest, acc =>
    if c.isWhitespace then
      (if acc = [] then splitAux rest [] else acc.reverse :: splitAux rest [])
    else splitAux rest (c :: acc)

/-- Python str.split() with no separator argument. -/
def pySplit (s : List Char) : List (List Char) := splitAux s []

/-- Python " ".join of a list of words. -/
def joinSpace : List (List Char) → List Char
  | [] => []
  | [w] => w
  | w :: ws => w ++ ' ' :: joinSpace ws

/-- Embedding of clean_name (app.py lines 124-130): non-str input yields "";
a str is lowered, stripped, transliterated, has hyphens and apostrophes
replaced by spaces and periods removed, has the substrings "gare de " and
"gare d " removed, and is finally re-joined from its whitespace-split
words. -/
def clean_name (v : PyVal) : List Char :=
  match v with
  | .nonstr => []
  | .str s =>
    joinSpace (pySplit
      (removeSub gareD (removeSub gareDe
        (removeDots (replaceApos (replaceDash
          ((pyStrip (s.map pyLower)).flatMap unidecodeChar)))))))

/- ===================== src/app.py: parse_heure ===================== -/

/-- Python t.split("-"): the full split on the hyphen separator, keeping
empty segments. -/
def splitDash : List Char → List (List Char)
  | [] => [[]]
  | c :: rest =>
    if c = '-' then [] :: splitDash rest
    else
      match splitDash rest with
      | [] => [[c]]
      | seg :: segs => (c :: seg) :: segs

/-- The removal of every capital H in parse_heure (app.py line 145). -/
def removeH (s : List Char) : List Char := s.filter (fun c => c ≠ 'H')

/-- Helper of the int() model: a non-empty all-digit string read in base 10. -/
def digitsToInt (l : List Char) : Option Int :=
  if l ≠ [] ∧ l.all (fun c => c.isDigit) then
    some (l.foldl (fun acc c => acc * 10 + ((c.toNat : Int) - 48)) 0)
  else none

/-- Models Python int(str) restricted to the decimal notation the app's data
uses: surrounding whitespace, an optional single sign, then at least one ASCII
digit; anything else raises in Python, modelled as none. -/
def pyInt (s : List Char) : Option Int :=
  match pyStrip s with
  | [] => none
  | c :: rest =>
    if c = '+' then digitsToInt rest
    else if c = '-' then (digitsToInt rest).map (fun z => -z)
    else digitsToInt (c :: rest)

/-- Embedding of parse_heure (app.py lines 143-146): non-str input yields
None; otherwise int(t.split("-")[0].replace("H","").strip()) with every
exception mapped to None by the bare except. -/
def parse_heure (v : PyVal) : Option Int :=
  match v with
  | .nonstr => none
  | .str t => pyInt (pyStrip (removeH ((splitDash t).headD [])))

/-- The claim's reading of parse_heure, stated from the spec sentence: the
segment of the string before the first hyphen, with capital H removed and
stripped, parsed as an integer; None for non-str input and for segments that
do not parse. -/
def specParseHeure (v : PyVal) : Option Int :=
  match v with
  | .nonstr => none
  | .str t => pyInt (pyStrip (removeH (t.takeWhile (fun c => c ≠ '-'))))

/- ===================== src/app.py: load_data mode merge ===================== -/

/-- One row of the stations dataframe df_g restricted to the columns the mode
assignment touches: the cleaned join key, the file's own mode column when it
exists (none modelling a missing or NaN cell), and the ter* indicator
columns consumed by get_mode. -/
structure GRow where
  gare_clean : String
  fileMode : Option String
  termetro : Option Int
  terrer : Option Int
  tertram : Option Int
  tertrain : Option Int
deriving DecidableEq

/-- Embedding of get_mode (app.py lines 173-178): the first ter* indicator
equal to 1 decides the mode, else "Autre". -/
def get_mode (r : GRow) : String :=
  if r.termetro = some 1 then "Métro"
  else if r.terrer = some 1 then "RER"
  else if r.tertram = some 1 then "Tram"
  else if r.tertrain = some 1 then "Train"
  else "Autre"

/-- The mode carried by a stations row: the file's own mode column verbatim
when that column exists, else the value computed by get_mode (app.py
lines 172-179). -/
def gMode (hasModeCol : Bool) (r : GRow) : Option String :=
  if hasModeCol then r.fileMode else some (get_mode r)

/-- The mode that df_g_unique = df_g.groupby("gare_clean").first() carries for
one key: the first non-null mode among the key's rows in file order (app.py
line 182); none when the key is absent or all its modes are null. -/
def uniqueModeFor (hasModeCol : Bool) (gs : List GRow) (key : String) : Option String :=
  ((gs.filter (fun r => r.gare_clean = key)).filterMap (gMode hasModeCol)).head?

/-- The mode of one merged row of df_m for a validation row with the given
cleaned key (app.py lines 154-157, 185-186): "Inconnu" for every row when the
stations file is absent, else the left-merged mode with NaN filled by
"Inconnu". -/
def mergedMode (gares : Option (List GRow × Bool)) (key : String) : String :=
  match gares with
  | none => "Inconnu"
  | some (gs, hasModeCol) => (uniqueModeFor hasModeCol gs key).getD "Inconnu"

/- ===================== Demonstration data and predicates ===================== -/

/-- A three-bar single-month demonstration series with closes 100, 110, 90. -/
def demoBars : List Bar :=
  [⟨2024, 1, 2, 100⟩, ⟨2024, 1, 9, 110⟩, ⟨2024, 1, 16, 90⟩]

/-- A one-bar series whose first close of the month is zero. -/
def zeroDemo : List Bar := [⟨2024, 1, 5, 0⟩]

/-- Uppercase ASCII letter test, used to state that clean_name's output
contains no uppercase letter. -/
def isUpperAscii (c : Char) : Bool := decide (65 ≤ c.toNat ∧ c.toNat ≤ 90)

/-- Holds when no two consecutive space characters occur in the list. -/
def noDoubleSpace : List Char → Bool
  | c :: d :: rest => (!(c == ' ' && d == ' ')) && noDoubleSpace (d :: rest)
  | _ => true

/- ===================== Helper lemmas: rolling statistics ===================== -/

lemma length_rollingMean (w : ℕ) (xs : List ℚ) : (rollingMean w xs).length = xs.length := by
  simp [rollingMean]

lemma length_rollingVar (w : ℕ) (xs : List ℚ) : (rollingVar w xs).length = xs.length := by
  simp [rollingVar]

lemma length_rollingStd (sq : ℚ → ℚ) (w : ℕ) (xs : List ℚ) :
    (rollingStd sq w xs).length = xs.length := by
  simp [rollingStd, length_rollingVar]

lemma getElem?_rollingMean (w : ℕ) (xs : List ℚ) (i : ℕ) (h : i < xs.length) :
    (rollingMean w xs)[i]? =
      some (if w ≤ i + 1 then some ((windowAt w i xs).sum / (w : ℚ)) else none) := by
  simp [rollingMean, List.getElem?_range, h]

lemma getElem?_rollingVar (w : ℕ) (xs : List ℚ) (i : ℕ) (h : i < xs.length) :
    (rollingVar w xs)[i]? =
      some (if w ≤ i + 1 then some (popVar (windowAt w i xs)) else none) := by
  simp [rollingVar, List.getElem?_range, h]

lemma getElem?_rollingStd (sq : ℚ → ℚ) (w : ℕ) (xs : List ℚ) (i : ℕ) (h : i < xs.length) :
    (rollingStd sq w xs)[i]? =
      some (if w ≤ i + 1 then some (sq (popVar (windowAt w i xs))) else none) := by
  rw [rollingStd, List.getElem?_map, getElem?_rollingVar w xs i h]
  split <;> simp

/-- Claim C2: for every valid series of closes of length L and positive window
w ≤ L, the rolling mean and rolling population standard deviation series each
have length exactly L, and their elements are defined exactly at the indices
that are ≥ w-1 and < L, with the explicit undefined marker elsewhere. -/
theorem claim_C2 (w : ℕ) (sq : ℚ → ℚ) (xs : List ℚ) (hw : 0 < w) (hwL : w ≤ xs.length) :
    (rollingMean w xs).length = xs.length ∧
    (rollingStd sq w xs).length = xs.length ∧
    ∀ i : ℕ,
      (definedAt (rollingMean w xs) i ↔ (w - 1 ≤ i ∧ i < xs.length)) ∧
      (definedAt (rollingStd sq w xs) i ↔ (w - 1 ≤ i ∧ i < xs.length)) := by
  refine ⟨length_rollingMean w xs, length_rollingStd sq w xs, fun i => ⟨?_, ?_⟩⟩
  · unfold definedAt
    by_cases h : i < xs.length
    · rw [getElem?_rollingMean w xs i h]
      constructor
      · rintro ⟨q, hq⟩
        split at hq
        · exact ⟨by omega, h⟩
        · simp at hq
      · rintro ⟨h1, -⟩
        rw [if_pos (by omega)]
        exact ⟨_, rfl⟩
    · rw [List.getElem?_eq_none (by rw [length_rollingMean]; omega)]
      simp
      omega
  · unfold definedAt
    by_cases h : i < xs.length
    · rw [getElem?_rollingStd sq w xs i h]
      constructor
      · rintro ⟨q, hq⟩
        split at hq
        · exact ⟨by omega, h⟩
        · simp at hq
      · rintro ⟨h1, -⟩
        rw [if_pos (by omega)]
        exact ⟨_, rfl⟩
    · rw [List.getElem?_eq_none (by rw [length_rollingStd]; omega)]
      simp
      omega

/-- Witness for claim C2 at window 2 over a three-element series. -/
theorem claim_C2_witness :
    definedAt (rollingMean 2 ([3, 5, 7] : List ℚ)) 1 ∧ ¬ definedAt (rollingMean 2 ([3, 5, 7] : List ℚ)) 0 := by
  have h := claim_C2 2 id ([3, 5, 7] : List ℚ) (by norm_num) (by norm_num)
  exact ⟨((h.2.2 1).1).mpr (by norm_num), fun hc => by have := ((h.2.2 0).1).mp hc; omega⟩

/- ===================== Helper lemmas: exponential smoothing ===================== -/

lemma length_emaFrom (a p : ℚ) (l : List ℚ) : (emaFrom a p l).length = l.length := by
  induction l generalizing p with
  | nil => simp [emaFrom]
  | cons x rest ih => simp [emaFrom, ih]

lemma length_ema (n : ℕ) (xs : List ℚ) : (ema n xs).length = xs.length := by
  cases xs <;> simp [ema, length_emaFrom]

lemma emaFrom_getElem? (a : ℚ) (l : List ℚ) (p : ℚ) (i : ℕ) (x b : ℚ)
    (h1 : l[i]? = some x) (h2 : (p :: emaFrom a p l)[i]? = some b) :
    (emaFrom a p l)[i]? = some (a * x + (1 - a) * b) := by
  induction l generalizing p i with
  | nil => simp at h1
  | cons y rest ih =>
    cases i with
    | zero =>
      simp only [List.getElem?_cons_zero, Option.some_inj] at h1 h2
      subst h1; subst h2
      simp [emaFrom]
    | succ j =>
      simp only [List.getElem?_cons_succ] at h1 h2
      simp only [emaFrom, List.getElem?_cons_succ]
      exact ih _ _ h1 (by simpa using h2)

lemma ema_getElem?_succ (n : ℕ) (xs : List ℚ) (i : ℕ) (a b : ℚ)
    (h1 : xs[i + 1]? = some a) (h2 : (ema n xs)[i]? = some b) :
    (ema n xs)[i + 1]? = some (emaAlpha n * a + (1 - emaAlpha n) * b) := by
  cases xs with
  | nil => simp at h1
  | cons x rest =>
    simp only [ema, List.getElem?_cons_succ] at h1 ⊢
    exact emaFrom_getElem? _ _ _ _ _ _ h1 (by simpa [ema] using h2)

/-- Claim C3: for every non-empty input series and positive span n, the
ExponentialSmoother output has the length of the input, its element at
index 0 equals the input element at index 0 (seed invariant), every position
from index 0 on is defined, and each subsequent element obeys the recurrence
`α·current + (1-α)·previous` with `α = 2/(n+1)`. -/
theorem claim_C3 (n : ℕ) (xs : List ℚ) (hn : 0 < n) (hxs : xs ≠ []) :
    (emaSeries n xs).length = xs.length ∧
    (∀ a, xs[0]? = some a → (emaSeries n xs)[0]? = some (some a)) ∧
    (∀ i, i < xs.length → definedAt (emaSeries n xs) i) ∧
    (∀ i a b, xs[i + 1]? = some a → (ema n xs)[i]? = some b →
      (ema n xs)[i + 1]? = some (emaAlpha n * a + (1 - emaAlpha n) * b)) := by
  refine ⟨by simp [emaSeries, length_ema], ?_, ?_, fun i a b h1 h2 => ema_getElem?_succ n xs i a b h1 h2⟩
  · intro a ha
    cases xs with
    | nil => simp at ha
    | cons x rest =>
      simp at ha
      subst ha
      simp [emaSeries, ema]
  · intro i hi
    unfold definedAt
    have hlen : i < (ema n xs).length := by rw [length_ema]; exact hi
    have hq : (ema n xs)[i]? = some ((ema n xs).get ⟨i, hlen⟩) := by
      simp [List.getElem?_eq_getElem hlen]
    exact ⟨(ema n xs).get ⟨i, hlen⟩, by simp [emaSeries, List.getElem?_map, hq]⟩

/-- Witness for claim C3 over the two-element series [1, 2] with span 1. -/
theorem claim_C3_witness :
    (ema 1 ([1, 2] : List ℚ))[1]? = some (emaAlpha 1 * 2 + (1 - emaAlpha 1) * 1) :=
  (claim_C3 1 ([1, 2] : List ℚ) (by norm_num) (by simp)).2.2.2 0 2 1 (by simp) (by simp [ema])

/- ===================== Helper lemmas: RSI ===================== -/

lemma getElem?_rsi (p : ℕ) (xs : List ℚ) (i : ℕ) (h : i < xs.length) :
    (rsi p xs)[i]? = some (if p ≤ i then some (rsiValue p i xs) else none) := by
  simp [rsi, List.getElem?_range, h]

lemma deltas_nil : deltas ([] : List ℚ) = [] := by simp [deltas]

lemma deltas_single (x : ℚ) : deltas [x] = [] := by simp [deltas]

lemma deltas_cons_cons (x y : ℚ) (rest : List ℚ) :
    deltas (x :: y :: rest) = (y - x) :: deltas (y :: rest) := by
  simp [deltas]

lemma deltas_pos (xs : List ℚ) (hmono : List.Chain' (· < ·) xs) :
    ∀ d ∈ deltas xs, 0 < d := by
  induction xs with
  | nil => simp [deltas_nil]
  | cons x rest ih =>
    cases rest with
    | nil => simp [deltas_single]
    | cons y rest2 =>
      rw [deltas_cons_cons]
      rw [List.chain'_cons] at hmono
      intro d hd
      rcases List.mem_cons.mp hd with h | h
      · subst h
        exact sub_pos.mpr hmono.1
      · exact ih hmono.2 d h

lemma meanLoss_eq_zero_of_mono (p i : ℕ) (xs : List ℚ) (hmono : List.Chain' (· < ·) xs) :
    meanLoss p i xs = 0 := by
  unfold meanLoss
  have hsum : ((((losses xs).drop (i - p)).take p).sum) = 0 := by
    apply List.sum_eq_zero
    intro x hx
    have hx2 : x ∈ losses xs := List.mem_of_mem_drop (List.mem_of_mem_take hx)
    obtain ⟨d, hd, hdx⟩ := List.mem_map.mp hx2
    have hdpos := deltas_pos xs hmono d hd
    rw [← hdx]
    exact max_eq_right (by linarith)
  rw [hsum, zero_div]

/-- Claim C1: for the MomentumOscillator (RSI), whenever the trailing-p
rolling mean of losses is exactly zero at a defined index, the output at that
index is defined and equals exactly 100 (the zero-loss business rule); in
particular, for every strictly monotonically increasing closing-price series
of length > p, RSI equals 100 at every defined index, since every trailing-p
window then contains no losses. -/
theorem claim_C1 (p i : ℕ) (xs : List ℚ) (hp : 0 < p) (hpi : p ≤ i) (hL : i < xs.length) :
    (meanLoss p i xs = 0 → (rsi p xs)[i]? = some (some 100)) ∧
    (List.Chain' (· < ·) xs → (rsi p xs)[i]? = some (some 100)) := by
  have hdef : (rsi p xs)[i]? = some (some (rsiValue p i xs)) := by
    rw [getElem?_rsi p xs i hL, if_pos hpi]
  constructor
  · intro h0
    rw [hdef, rsiValue, if_pos h0]
  · intro hmono
    rw [hdef, rsiValue, if_pos (meanLoss_eq_zero_of_mono p i xs hmono)]

/-- Witness for claim C1: a strictly increasing three-element series with
lookback 1, whose RSI at index 1 is exactly 100. -/
theorem claim_C1_witness : (rsi 1 ([1, 2, 3] : List ℚ))[1]? = some (some 100) :=
  (claim_C1 1 1 ([1, 2, 3] : List ℚ) (by norm_num) (le_refl 1) (by norm_num)).2
    (by constructor <;> norm_num)

/- ===================== Helper lemmas: Bollinger bands ===================== -/

/-- Claim C5: for the VolatilityBandIndicator built from one RollingStatistics
invocation with window w and multiplier k, at every index where both the
rolling mean and rolling standard deviation are defined, the two bands are
defined as mean ± k·stddev and their difference is exactly 2·k·stddev, for
all k; both bands carry the undefined marker wherever either input does. -/
theorem claim_C5 (k : ℚ) (sq : ℚ → ℚ) (w : ℕ) (xs : List ℚ) (i : ℕ) :
    (∀ m s, (rollingMean w xs)[i]? = some (some m) →
      (rollingStd sq w xs)[i]? = some (some s) →
      (upperBand k sq w xs)[i]? = some (some (m + k * s)) ∧
      (lowerBand k sq w xs)[i]? = some (some (m - k * s)) ∧
      (m + k * s) - (m - k * s) = 2 * k * s) ∧
    (∀ o o2, (rollingMean w xs)[i]? = some o → (rollingStd sq w xs)[i]? = some o2 →
      (o = none ∨ o2 = none) →
      (upperBand k sq w xs)[i]? = some none ∧ (lowerBand k sq w xs)[i]? = some none) := by
  constructor
  · intro m s h1 h2
    refine ⟨?_, ?_, by ring⟩
    · rw [upperBand, List.getElem?_zipWith, h1, h2]
      simp [combineBand]
    · rw [lowerBand, List.getElem?_zipWith, h1, h2]
      simp [combineBand]
  · intro o o2 h1 h2 hnone
    constructor
    · rw [upperBand, List.getElem?_zipWith, h1, h2]
      rcases hnone with h | h <;> subst h
      · simp [combineBand]
      · cases o <;> simp [combineBand]
    · rw [lowerBand, List.getElem?_zipWith, h1, h2]
      rcases hnone with h | h <;> subst h
      · simp [combineBand]
      · cases o <;> simp [combineBand]

/-- Witness for claim C5 at window 1 over the series [2, 4] with multiplier 3
and the identity in place of the square root: both bands and the band-width
identity at index 0. -/
theorem claim_C5_witness :
    (upperBand 3 id 1 ([2, 4] : List ℚ))[0]? = some (some ((2 : ℚ) + 3 * 0)) := by
  have h := (claim_C5 3 id 1 ([2, 4] : List ℚ) 0).1 2 0
    (by norm_num [rollingMean, windowAt, List.getElem?_range])
    (by norm_num [rollingStd, rollingVar, popVar, windowAt, List.getElem?_range])
  exact h.1

/- ===================== Helper lemmas: period aggregation ===================== -/

/-- Claim C4: the PeriodAggregator groups bars by (year, month) preserving
first-seen order and computes `(lastClose - firstClose)/firstClose * 100` from
the chronologically first and last close of the month: on the single-month
close sequence [100, 110, 90] the result is exactly -10; a group whose first
close is zero reports an explicit ArithmeticDegenerateCase error; and each
group's result depends only on that group's own bars, so other groups are
unaffected. -/
theorem claim_C4 :
    periodAggregate demoBars = [((2024, 1), Except.ok (-10 : ℚ))] ∧
    (∀ bars k f rest, monthBars bars k = f :: rest → f.close = 0 →
      monthlyReturn bars k =
        .error "ArithmeticDegenerateCase: first close of month is zero") ∧
    (∀ bars k, monthlyReturn bars k = monthlyReturn (monthBars bars k) k) := by
  refine ⟨?_, ?_, ?_⟩
  · norm_num [periodAggregate, monthKeys, monthKey, monthlyReturn, monthBars,
      demoBars, List.filter]
  · intro bars k f rest hmb hf
    unfold monthlyReturn
    rw [hmb]
    simp [hf]
  · intro bars k
    have h : monthBars (monthBars bars k) k = monthBars bars k :=
      List.filter_eq_self.mpr (fun b hb => (List.mem_filter.mp hb).2)
    unfold monthlyReturn
    rw [h]

/-- Witness for claim C4: the one-bar series with first close zero reports the
degenerate-case error. -/
theorem claim_C4_witness :
    monthlyReturn zeroDemo (2024, 1) =
      .error "ArithmeticDegenerateCase: first close of month is zero" :=
  claim_C4.2.1 zeroDemo (2024, 1) ⟨2024, 1, 5, 0⟩ [] rfl rfl

/- ===================== Claim C6: input validation ===================== -/

/-- Claim C6: for every engine component, invalid input - an empty series, a
series violating the strictly-ascending-no-duplicate date invariant, or a
non-positive window/span/lookback configuration - is rejected at entry with a
descriptive InputValidationError and no output is produced, while every valid
input yields a successful result; nothing is silently clamped or dropped. -/
theorem claim_C6 (w n p : ℕ) (bars : List Bar) :
    ((∃ out, checkedRolling w bars = .ok out) ↔ (0 < w ∧ validSeries bars)) ∧
    ((∃ out, checkedEma n bars = .ok out) ↔ (0 < n ∧ validSeries bars)) ∧
    ((∃ out, checkedRsi p bars = .ok out) ↔ (0 < p ∧ validSeries bars)) ∧
    ((∃ out, checkedAggregate bars = .ok out) ↔ validSeries bars) := by
  refine ⟨?_, ?_, ?_, ?_⟩
  · unfold checkedRolling validSeries
    split_ifs with h1 h2 h3 <;> simp_all <;> omega
  · unfold checkedEma validSeries
    split_ifs with h1 h2 h3 <;> simp_all <;> omega
  · unfold checkedRsi validSeries
    split_ifs with h1 h2 h3 <;> simp_all <;> omega
  · unfold checkedAggregate validSeries
    split_ifs with h1 h2 <;> simp_all

/-- Witness for claim C6: the demonstration series is accepted by the
aggregator entry point, and a window of zero is rejected. -/
theorem claim_C6_witness :
    (∃ out, checkedAggregate demoBars = .ok out) ∧
    ¬ (∃ out, checkedRolling 0 demoBars = .ok out) := by
  have h := claim_C6 0 1 1 demoBars
  refine ⟨h.2.2.2.mpr ⟨by simp [demoBars], ?_⟩, fun hc => by have := (h.1.mp hc).1; omega⟩
  norm_num [demoBars, List.chain'_cons, List.chain'_singleton, dateLt]

/- ===================== Helper lemmas: causality ===================== -/

lemma windowAt_eq_take (w i : ℕ) (xs : List ℚ) (h : w ≤ i + 1) :
    windowAt w i xs = (xs.take (i + 1)).drop (i + 1 - w) := by
  rw [windowAt, List.drop_take]
  congr 1
  omega

lemma rollingMean_causal (w : ℕ) (xs ys : List ℚ) (i : ℕ)
    (hpre : xs.take (i + 1) = ys.take (i + 1)) (hx : i < xs.length) (hy : i < ys.length) :
    (rollingMean w xs)[i]? = (rollingMean w ys)[i]? := by
  rw [getElem?_rollingMean w xs i hx, getElem?_rollingMean w ys i hy]
  by_cases h : w ≤ i + 1
  · rw [if_pos h, if_pos h, windowAt_eq_take w i xs h, windowAt_eq_take w i ys h, hpre]
  · rw [if_neg h, if_neg h]

lemma rollingStd_causal (sq : ℚ → ℚ) (w : ℕ) (xs ys : List ℚ) (i : ℕ)
    (hpre : xs.take (i + 1) = ys.take (i + 1)) (hx : i < xs.length) (hy : i < ys.length) :
    (rollingStd sq w xs)[i]? = (rollingStd sq w ys)[i]? := by
  rw [getElem?_rollingStd sq w xs i hx, getElem?_rollingStd sq w ys i hy]
  by_cases h : w ≤ i + 1
  · rw [if_pos h, if_pos h, windowAt_eq_take w i xs h, windowAt_eq_take w i ys h, hpre]
  · rw [if_neg h, if_neg h]

lemma emaFrom_take (a : ℚ) (l : List ℚ) (p : ℚ) (k : ℕ) :
    (emaFrom a p l).take k = emaFrom a p (l.take k) := by
  induction l generalizing p k with
  | nil => simp [emaFrom]
  | cons x rest ih =>
    cases k with
    | zero => simp [emaFrom]
    | succ j => simp [emaFrom, ih]

lemma ema_take (n : ℕ) (xs : List ℚ) (k : ℕ) : (ema n xs).take k = ema n (xs.take k) := by
  cases xs with
  | nil => simp [ema]
  | cons x rest =>
    cases k with
    | zero => simp [ema]
    | succ j => simp [ema, emaFrom_take]

lemma getElem?_take_succ {α : Type} (l : List α) (i : ℕ) : (l.take (i + 1))[i]? = l[i]? := by
  simp [List.getElem?_take]

lemma ema_causal (n : ℕ) (xs ys : List ℚ) (i : ℕ)
    (hpre : xs.take (i + 1) = ys.take (i + 1)) :
    (ema n xs)[i]? = (ema n ys)[i]? := by
  rw [← getElem?_take_succ (ema n xs) i, ← getElem?_take_succ (ema n ys) i,
    ema_take, ema_take, hpre]

lemma zipWith_take_right (f : ℚ → ℚ → ℚ) (l m : List ℚ) (j : ℕ) (h : l.length ≤ j) :
    List.zipWith f l (m.take j) = List.zipWith f l m := by
  induction l generalizing m j with
  | nil => simp
  | cons a l2 ih =>
    cases m with
    | nil => simp
    | cons b m2 =>
      cases j with
      | zero => simp at h
      | succ j2 =>
        simp only [List.take_succ_cons, List.zipWith_cons_cons]
        rw [ih m2 j2 (by simpa using Nat.lt_succ_iff.mp (Nat.lt_succ_of_le h))]

lemma tail_take (xs : List ℚ) (i : ℕ) : (xs.take (i + 1)).tail = xs.tail.take i := by
  cases xs <;> simp

lemma deltas_take (xs : List ℚ) (i : ℕ) : deltas (xs.take (i + 1)) = (deltas xs).take i := by
  unfold deltas
  rw [tail_take, List.take_zipWith]
  rw [zipWith_take_right _ _ _ (i + 1) (le_trans (List.length_take_le i xs.tail) (by omega)),
    zipWith_take_right _ _ _ i (List.length_take_le i xs.tail)]

lemma losses_take_eq (i : ℕ) (xs ys : List ℚ) (hpre : xs.take (i + 1) = ys.take (i + 1)) :
    (losses xs).take i = (losses ys).take i := by
  unfold losses
  rw [← List.map_take, ← List.map_take, ← deltas_take, ← deltas_take, hpre]

lemma gains_take_eq (i : ℕ) (xs ys : List ℚ) (hpre : xs.take (i + 1) = ys.take (i + 1)) :
    (gains xs).take i = (gains ys).take i := by
  unfold gains
  rw [← List.map_take, ← List.map_take, ← deltas_take, ← deltas_take, hpre]

lemma drop_take_window (l : List ℚ) (p i : ℕ) (hpi : p ≤ i) :
    (l.drop (i - p)).take p = (l.take i).drop (i - p) := by
  rw [List.drop_take]
  congr 1
  omega

lemma meanLoss_congr (p i : ℕ) (xs ys : List ℚ)
    (hpre : xs.take (i + 1) = ys.take (i + 1)) (hpi : p ≤ i) :
    meanLoss p i xs = meanLoss p i ys := by
  unfold meanLoss
  rw [drop_take_window _ p i hpi, drop_take_window _ p i hpi, losses_take_eq i xs ys hpre]

lemma meanGain_congr (p i : ℕ) (xs ys : List ℚ)
    (hpre : xs.take (i + 1) = ys.take (i + 1)) (hpi : p ≤ i) :
    meanGain p i xs = meanGain p i ys := by
  unfold meanGain
  rw [drop_take_window _ p i hpi, drop_take_window _ p i hpi, gains_take_eq i xs ys hpre]

lemma rsi_causal (p : ℕ) (xs ys : List ℚ) (i : ℕ)
    (hpre : xs.take (i + 1) = ys.take (i + 1)) (hx : i < xs.length) (hy : i < ys.length) :
    (rsi p xs)[i]? = (rsi p ys)[i]? := by
  rw [getElem?_rsi p xs i hx, getElem?_rsi p ys i hy]
  by_cases h : p ≤ i
  · rw [if_pos h, if_pos h]
    unfold rsiValue
    rw [meanLoss_congr p i xs ys hpre h, meanGain_congr p i xs ys hpre h]
  · rw [if_neg h, if_neg h]

lemma length_macdLine (fast slow : ℕ) (xs : List ℚ) :
    (macdLine fast slow xs).length = xs.length := by
  simp [macdLine, length_ema]

lemma macdLine_take (fast slow : ℕ) (xs : List ℚ) (k : ℕ) :
    (macdLine fast slow xs).take k = macdLine fast slow (xs.take k) := by
  unfold macdLine
  rw [List.take_zipWith, ema_take, ema_take]

lemma macdLine_causal (fast slow : ℕ) (xs ys : List ℚ) (i : ℕ)
    (hpre : xs.take (i + 1) = ys.take (i + 1)) :
    (macdLine fast slow xs)[i]? = (macdLine fast slow ys)[i]? := by
  unfold macdLine
  rw [List.getElem?_zipWith, List.getElem?_zipWith, ema_causal fast xs ys i hpre,
    ema_causal slow xs ys i hpre]

lemma signalLine_causal (fast slow sg : ℕ) (xs ys : List ℚ) (i : ℕ)
    (hpre : xs.take (i + 1) = ys.take (i + 1)) :
    (signalLine fast slow sg xs)[i]? = (signalLine fast slow sg ys)[i]? := by
  unfold signalLine
  apply ema_causal
  rw [macdLine_take, macdLine_take, hpre]

lemma upperBand_causal (k : ℚ) (sq : ℚ → ℚ) (w : ℕ) (xs ys : List ℚ) (i : ℕ)
    (hpre : xs.take (i + 1) = ys.take (i + 1)) (hx : i < xs.length) (hy : i < ys.length) :
    (upperBand k sq w xs)[i]? = (upperBand k sq w ys)[i]? := by
  unfold upperBand
  rw [List.getElem?_zipWith, List.getElem?_zipWith, rollingMean_causal w xs ys i hpre hx hy,
    rollingStd_causal sq w xs ys i hpre hx hy]

lemma lowerBand_causal (k : ℚ) (sq : ℚ → ℚ) (w : ℕ) (xs ys : List ℚ) (i : ℕ)
    (hpre : xs.take (i + 1) = ys.take (i + 1)) (hx : i < xs.length) (hy : i < ys.length) :
    (lowerBand k sq w xs)[i]? = (lowerBand k sq w ys)[i]? := by
  unfold lowerBand
  rw [List.getElem?_zipWith, List.getElem?_zipWith, rollingMean_causal w xs ys i hpre hx hy,
    rollingStd_causal sq w xs ys i hpre hx hy]

/-- Claim C7: every indicator computation of the engine is causal: for any two
input series that agree on all indices up to and including i, the value
produced at index i by the rolling mean, rolling standard deviation,
exponential smoother, RSI, both Bollinger bands, the MACD line and the MACD
signal line is identical (no look-ahead). -/
theorem claim_C7 (w n p fast slow sg : ℕ) (k : ℚ) (sq : ℚ → ℚ) (xs ys : List ℚ) (i : ℕ)
    (hpre : xs.take (i + 1) = ys.take (i + 1)) (hx : i < xs.length) (hy : i < ys.length) :
    (rollingMean w xs)[i]? = (rollingMean w ys)[i]? ∧
    (rollingStd sq w xs)[i]? = (rollingStd sq w ys)[i]? ∧
    (ema n xs)[i]? = (ema n ys)[i]? ∧
    (rsi p xs)[i]? = (rsi p ys)[i]? ∧
    (upperBand k sq w xs)[i]? = (upperBand k sq w ys)[i]? ∧
    (lowerBand k sq w xs)[i]? = (lowerBand k sq w ys)[i]? ∧
    (macdLine fast slow xs)[i]? = (macdLine fast slow ys)[i]? ∧
    (signalLine fast slow sg xs)[i]? = (signalLine fast slow sg ys)[i]? :=
  ⟨rollingMean_causal w xs ys i hpre hx hy,
   rollingStd_causal sq w xs ys i hpre hx hy,
   ema_causal n xs ys i hpre,
   rsi_causal p xs ys i hpre hx hy,
   upperBand_causal k sq w xs ys i hpre hx hy,
   lowerBand_causal k sq w xs ys i hpre hx hy,
   macdLine_causal fast slow xs ys i hpre,
   signalLine_causal fast slow sg xs ys i hpre⟩

/-- Witness for claim C7: two series that agree up to index 0 and differ
afterwards produce the same rolling mean at index 0. -/
theorem claim_C7_witness :
    (rollingMean 1 ([5, 1] : List ℚ))[0]? = (rollingMean 1 ([5, 9] : List ℚ))[0]? :=
  (claim_C7 1 1 1 1 1 1 1 id ([5, 1] : List ℚ) ([5, 9] : List ℚ) 0
    rfl (by norm_num) (by norm_num)).1

/- ===================== Claim C9: parse_heure ===================== -/

lemma splitDash_ne_nil (t : List Char) : splitDash t ≠ [] := by
  cases t with
  | nil => simp [splitDash]
  | cons c rest =>
    unfold splitDash
    split
    · simp
    · cases splitDash rest <;> simp

lemma headD_splitDash (t : List Char) :
    (splitDash t).headD [] = t.takeWhile (fun c => c ≠ '-') := by
  induction t with
  | nil => rfl
  | cons c rest ih =>
    by_cases h : c = '-'
    · subst h
      simp [splitDash, List.takeWhile_cons]
    · rw [splitDash]
      rw [if_neg h]
      cases hs : splitDash rest with
      | nil => exact absurd hs (splitDash_ne_nil rest)
      | cons seg segs =>
        rw [hs] at ih
        simp only [List.headD_cons] at ih ⊢
        rw [List.takeWhile_cons, if_pos (by simp [h]), ← ih]

/-- Claim C9: parse_heure is total and never raises: it returns None for every
non-str input and for every str whose segment before the first hyphen, with
capital H removed and stripped, does not parse as an integer; otherwise it
returns that integer. The behaviour is stated as specParseHeure and the
embedded code is proved to coincide with it on every input. -/
theorem claim_C9 (v : PyVal) : parse_heure v = specParseHeure v := by
  cases v with
  | nonstr => rfl
  | str t => simp only [parse_heure, specParseHeure, headD_splitDash]

/-- Witness for claim C9 on the concrete time slot string "9H-10H". -/
theorem claim_C9_witness :
    parse_heure (PyVal.str ("9H-10H".data)) = specParseHeure (PyVal.str ("9H-10H".data)) :=
  claim_C9 (PyVal.str ("9H-10H".data))

/- ===================== Claim C10: merged mode invariant ===================== -/

lemma get_mode_mem_five (r : GRow) :
    get_mode r ∈ (["Métro", "RER", "Tram", "Train", "Autre"] : List String) := by
  unfold get_mode
  split_ifs <;> simp

/-- Claim C10: every merged row's mode is non-null (the embedding returns a
plain String): when the stations file is absent the mode is "Inconnu"; a
validation row with no matching station, or whose group carries only null
modes, receives "Inconnu" through the fillna; and otherwise the mode is one of
the five values get_mode can compute or a value taken verbatim from the
stations file's own mode column. -/
theorem claim_C10 (gares : Option (List GRow × Bool)) (key : String) :
    (gares = none → mergedMode gares key = "Inconnu") ∧
    (mergedMode gares key = "Inconnu" ∨
     mergedMode gares key ∈ (["Métro", "RER", "Tram", "Train", "Autre"] : List String) ∨
     ∃ gs, gares = some (gs, true) ∧ ∃ r ∈ gs, r.fileMode = some (mergedMode gares key)) := by
  cases gares with
  | none => exact ⟨fun _ => rfl, Or.inl rfl⟩
  | some pair =>
    obtain ⟨gs, hasMode⟩ := pair
    refine ⟨fun h => by simp at h, ?_⟩
    cases hm : uniqueModeFor hasMode gs key with
    | none =>
      left
      simp [mergedMode, hm]
    | some v =>
      have hv : mergedMode (some (gs, hasMode)) key = v := by simp [mergedMode, hm]
      have hmem : v ∈ (gs.filter (fun r => r.gare_clean = key)).filterMap (gMode hasMode) := by
        apply List.mem_of_mem_head?
        unfold uniqueModeFor at hm
        rw [hm]
        rfl
      obtain ⟨r, hr, hrv⟩ := List.mem_filterMap.mp hmem
      have hrgs : r ∈ gs := (List.mem_filter.mp hr).1
      cases hasMode with
      | true =>
        right; right
        refine ⟨gs, rfl, r, hrgs, ?_⟩
        rw [hv]
        simpa [gMode] using hrv
      | false =>
        right; left
        have hveq : get_mode r = v := by simpa [gMode] using hrv
        rw [hv, ← hveq]
        exact get_mode_mem_five r

/-- Witness for claim C10: with the stations file absent, the merged mode is
"Inconnu". -/
theorem claim_C10_witness : mergedMode none "gare test" = "Inconnu" :=
  (claim_C10 none "gare test").1 rfl

/- ===================== Claim C8: clean_name, character lemmas ===================== -/

lemma mem_pyStrip {c : Char} {s : List Char} (h : c ∈ pyStrip s) : c ∈ s := by
  unfold pyStrip at h
  rw [List.mem_reverse] at h
  have h2 := (List.dropWhile_sublist _).subset h
  rw [List.mem_reverse] at h2
  exact (List.dropWhile_sublist _).subset h2

lemma mem_removeSub (pat l : List Char) : ∀ c ∈ removeSub pat l, c ∈ l := by
  induction l using removeSub.induct pat with
  | case1 => simp [removeSub]
  | case2 c rest hmatch ih =>
    intro x hx
    rw [removeSub, if_pos hmatch] at hx
    exact List.mem_of_mem_drop (ih x hx)
  | case3 c rest hnmatch ih =>
    intro x hx
    rw [removeSub, if_neg hnmatch] at hx
    rcases List.mem_cons.mp hx with h | h
    · exact h ▸ List.mem_cons_self _ _
    · exact List.mem_cons_of_mem _ (ih x h)

lemma good_after_dots (s : List Char) :
    ∀ c ∈ removeDots (replaceApos (replaceDash
        ((pyStrip (s.map pyLower)).flatMap unidecodeChar))),
      c ≠ '-' ∧ c ≠ apos ∧ c ≠ '.' := by
  intro c hc
  obtain ⟨hc4, hdot⟩ := List.mem_filter.mp hc
  have hdot2 : c ≠ '.' := by simpa using hdot
  obtain ⟨d, hd, hcd⟩ := List.mem_map.mp hc4
  obtain ⟨e, he, hde⟩ := List.mem_map.mp hd
  by_cases h1 : e = '-'
  · rw [if_pos h1] at hde
    subst hde
    rw [if_neg (by decide)] at hcd
    subst hcd
    exact ⟨by decide, by decide, by decide⟩
  · rw [if_neg h1] at hde
    subst hde
    by_cases h2 : e = apos
    · rw [if_pos h2] at hcd
      subst hcd
      exact ⟨by decide, by decide, by decide⟩
    · rw [if_neg h2] at hcd
      subst hcd
      exact ⟨h1, h2, hdot2⟩

lemma upper_after_dots (s : List Char)
    (hsafe : ∀ a ∈ s, ∀ d ∈ unidecodeChar (pyLower a), isUpperAscii d = false) :
    ∀ c ∈ removeDots (replaceApos (replaceDash
        ((pyStrip (s.map pyLower)).flatMap unidecodeChar))),
      isUpperAscii c = false := by
  intro c hc
  obtain ⟨hc4, -⟩ := List.mem_filter.mp hc
  obtain ⟨d, hd, hcd⟩ := List.mem_map.mp hc4
  obtain ⟨e, he, hde⟩ := List.mem_map.mp hd
  obtain ⟨b, hb, heb⟩ := List.mem_flatMap.mp he
  obtain ⟨a, ha, hba⟩ := List.mem_map.mp (mem_pyStrip hb)
  have hgood : isUpperAscii e = false := by
    rw [← hba] at heb
    exact hsafe a ha e heb
  by_cases h1 : e = '-'
  · rw [if_pos h1] at hde
    subst hde
    rw [if_neg (by decide)] at hcd
    subst hcd
    decide
  · rw [if_neg h1] at hde
    subst hde
    by_cases h2 : e = apos
    · rw [if_pos h2] at hcd
      subst hcd
      decide
    · rw [if_neg h2] at hcd
      subst hcd
      exact hgood

/- ===================== Claim C8: split and join lemmas ===================== -/

lemma splitAux_ne_nil : ∀ (s acc : List Char), ∀ p ∈ splitAux s acc, p ≠ [] := by
  intro s
  induction s with
  | nil =>
    intro acc p hp
    unfold splitAux at hp
    split at hp
    · simp at hp
    · rename_i ha
      simp only [List.mem_singleton] at hp
      subst hp
      simpa using ha
  | cons c rest ih =>
    intro acc p hp
    unfold splitAux at hp
    split at hp
    · split at hp
      · exact ih [] p hp
      · rename_i ha
        rcases List.mem_cons.mp hp with h | h
        · subst h
          simpa using ha
        · exact ih [] p h
    · exact ih (c :: acc) p hp

lemma splitAux_chars : ∀ (s acc : List Char), (∀ y ∈ acc, y.isWhitespace = false) →
    ∀ p ∈ splitAux s acc, ∀ x ∈ p, x.isWhitespace = false ∧ (x ∈ s ∨ x ∈ acc) := by
  intro s
  induction s with
  | nil =>
    intro acc hacc p hp x hx
    unfold splitAux at hp
    split at hp
    · simp at hp
    · simp only [List.mem_singleton] at hp
      subst hp
      rw [List.mem_reverse] at hx
      exact ⟨hacc x hx, Or.inr hx⟩
  | cons c rest ih =>
    intro acc hacc p hp x hx
    unfold splitAux at hp
    split at hp
    · split at hp
      · obtain ⟨h1, h2⟩ := ih [] (by simp) p hp x hx
        rcases h2 with h | h
        · exact ⟨h1, Or.inl (List.mem_cons_of_mem _ h)⟩
        · simp at h
      · rcases List.mem_cons.mp hp with h | h
        · subst h
          rw [List.mem_reverse] at hx
          exact ⟨hacc x hx, Or.inr hx⟩
        · obtain ⟨h1, h2⟩ := ih [] (by simp) p h x hx
          rcases h2 with h3 | h3
          · exact ⟨h1, Or.inl (List.mem_cons_of_mem _ h3)⟩
          · simp at h3
    · rename_i hw
      have hacc2 : ∀ y ∈ c :: acc, y.isWhitespace = false := by
        intro y hy
        rcases List.mem_cons.mp hy with h | h
        · subst h
          simpa using hw
        · exact hacc y h
      obtain ⟨h1, h2⟩ := ih (c :: acc) hacc2 p hp x hx
      refine ⟨h1, ?_⟩
      rcases h2 with h | h
      · exact Or.inl (List.mem_cons_of_mem _ h)
      · rcases List.mem_cons.mp h with h3 | h3
        · subst h3
          exact Or.inl (List.mem_cons_self _ _)
        · exact Or.inr h3

lemma pySplit_pieces (t : List Char) :
    ∀ p ∈ pySplit t, p ≠ [] ∧ ∀ x ∈ p, x.isWhitespace = false ∧ x ∈ t := by
  intro p hp
  refine ⟨splitAux_ne_nil t [] p hp, fun x hx => ?_⟩
  obtain ⟨h1, h2⟩ := splitAux_chars t [] (by simp) p hp x hx
  rcases h2 with h | h
  · exact ⟨h1, h⟩
  · simp at h

lemma ne_space_of_not_ws {x : Char} (h : x.isWhitespace = false) : x ≠ ' ' := by
  intro hx
  subst hx
  simp at h

lemma mem_joinSpace (ps : List (List Char)) (c : Char) (h : c ∈ joinSpace ps) :
    c = ' ' ∨ ∃ p ∈ ps, c ∈ p := by
  induction ps with
  | nil => simp [joinSpace] at h
  | cons w ws ih =>
    cases ws with
    | nil =>
      right
      exact ⟨w, by simp, by simpa [joinSpace] using h⟩
    | cons w2 ws2 =>
      have hj : joinSpace (w :: w2 :: ws2) = w ++ ' ' :: joinSpace (w2 :: ws2) := rfl
      rw [hj] at h
      rcases List.mem_append.mp h with h | h
      · right
        exact ⟨w, List.mem_cons_self _ _, h⟩
      · rcases List.mem_cons.mp h with h | h
        · left
          exact h
        · rcases ih h with h2 | ⟨p, hp, hcp⟩
          · left
            exact h2
          · right
            exact ⟨p, List.mem_cons_of_mem _ hp, hcp⟩

lemma joinSpace_ne_nil (ps : List (List Char)) (hps : ps ≠ []) (hne : ∀ p ∈ ps, p ≠ []) :
    joinSpace ps ≠ [] := by
  cases ps with
  | nil => simp at hps
  | cons w ws =>
    cases ws with
    | nil => simpa [joinSpace] using hne w (by simp)
    | cons w2 ws2 =>
      have hj : joinSpace (w :: w2 :: ws2) = w ++ ' ' :: joinSpace (w2 :: ws2) := rfl
      rw [hj]
      simp

lemma head?_joinSpace (ps : List (List Char)) (hne : ∀ p ∈ ps, p ≠ [])
    (hsp : ∀ p ∈ ps, ∀ x ∈ p, x ≠ ' ') : (joinSpace ps).head? ≠ some ' ' := by
  cases ps with
  | nil => simp [joinSpace]
  | cons w ws =>
    have hw : w ≠ [] := hne w (by simp)
    have hj : ∃ r, joinSpace (w :: ws) = w ++ r := by
      cases ws with
      | nil => exact ⟨[], by simp [joinSpace]⟩
      | cons w2 ws2 => exact ⟨' ' :: joinSpace (w2 :: ws2), rfl⟩
    obtain ⟨r, hr⟩ := hj
    rw [hr]
    cases w with
    | nil => simp at hw
    | cons a w2 =>
      simp only [List.cons_append, List.head?_cons]
      intro hcontra
      have ha : a = ' ' := by simpa using hcontra
      exact hsp (a :: w2) (by simp) a (by simp) ha

lemma getLast?_joinSpace (ps : List (List Char)) (hne : ∀ p ∈ ps, p ≠ [])
    (hsp : ∀ p ∈ ps, ∀ x ∈ p, x ≠ ' ') : (joinSpace ps).getLast? ≠ some ' ' := by
  induction ps with
  | nil => simp [joinSpace]
  | cons w ws ih =>
    cases ws with
    | nil =>
      show w.getLast? ≠ some ' '
      intro hc
      exact hsp w (by simp) ' ' (List.mem_of_mem_getLast? hc) rfl
    | cons w2 ws2 =>
      have hj : joinSpace (w :: w2 :: ws2) = w ++ ' ' :: joinSpace (w2 :: ws2) := rfl
      rw [hj]
      have hih : (joinSpace (w2 :: ws2)).getLast? ≠ some ' ' :=
        ih (fun p hp => hne p (List.mem_cons_of_mem _ hp))
          (fun p hp => hsp p (List.mem_cons_of_mem _ hp))
      cases hjj : joinSpace (w2 :: ws2) with
      | nil =>
        exact absurd hjj (joinSpace_ne_nil _ (by simp)
          (fun p hp => hne p (List.mem_cons_of_mem _ hp)))
      | cons j jt =>
        rw [List.getLast?_append, List.getLast?_cons_cons]
        cases hg : (j :: jt).getLast? with
        | none => simp at hg
        | some x =>
          have hx : x ≠ ' ' := by
            intro hxx
            apply hih
            rw [hjj, hg, hxx]
          simp [Option.or, hx]

lemma nds_of_no_space (l : List Char) (h : ∀ x ∈ l, x ≠ ' ') : noDoubleSpace l = true := by
  induction l with
  | nil => rfl
  | cons a t ih =>
    cases t with
    | nil => rfl
    | cons b t2 =>
      have ha : a ≠ ' ' := h a (by simp)
      show ((!(a == ' ' && b == ' ')) && noDoubleSpace (b :: t2)) = true
      rw [Bool.and_eq_true]
      exact ⟨by simp [ha], ih (fun x hx => h x (List.mem_cons_of_mem _ hx))⟩

lemma nds_append (w r : List Char) (hw : ∀ x ∈ w, x ≠ ' ') (hr : noDoubleSpace r = true) :
    noDoubleSpace (w ++ r) = true := by
  induction w with
  | nil => simpa using hr
  | cons a w2 ih =>
    have ha : a ≠ ' ' := hw a (by simp)
    have ih2 : noDoubleSpace (w2 ++ r) = true :=
      ih (fun x hx => hw x (List.mem_cons_of_mem _ hx))
    rw [List.cons_append]
    cases hwr : w2 ++ r with
    | nil => rfl
    | cons b t =>
      show ((!(a == ' ' && b == ' ')) && noDoubleSpace (b :: t)) = true
      rw [hwr] at ih2
      rw [Bool.and_eq_true]
      exact ⟨by simp [ha], ih2⟩

lemma nds_joinSpace (ps : List (List Char)) (hne : ∀ p ∈ ps, p ≠ [])
    (hsp : ∀ p ∈ ps, ∀ x ∈ p, x ≠ ' ') : noDoubleSpace (joinSpace ps) = true := by
  induction ps with
  | nil => rfl
  | cons w ws ih =>
    cases ws with
    | nil =>
      show noDoubleSpace w = true
      exact nds_of_no_space w (hsp w (by simp))
    | cons w2 ws2 =>
      have hj : joinSpace (w :: w2 :: ws2) = w ++ ' ' :: joinSpace (w2 :: ws2) := rfl
      rw [hj]
      apply nds_append w _ (hsp w (by simp))
      have hih : noDoubleSpace (joinSpace (w2 :: ws2)) = true :=
        ih (fun p hp => hne p (List.mem_cons_of_mem _ hp))
          (fun p hp => hsp p (List.mem_cons_of_mem _ hp))
      have hhead : (joinSpace (w2 :: ws2)).head? ≠ some ' ' :=
        head?_joinSpace _ (fun p hp => hne p (List.mem_cons_of_mem _ hp))
          (fun p hp => hsp p (List.mem_cons_of_mem _ hp))
      cases hjj : joinSpace (w2 :: ws2) with
      | nil => rfl
      | cons j jt =>
        show ((!(' ' == ' ' && j == ' ')) && noDoubleSpace (j :: jt)) = true
        have hj2 : j ≠ ' ' := by
          intro hc
          apply hhead
          rw [hjj, hc]
          rfl
        rw [hjj] at hih
        rw [Bool.and_eq_true]
        exact ⟨by simp [hj2], hih⟩

/-- Claim C8, amended: for every non-str input clean_name returns the empty
string without raising; for every str input the result contains none of the
hyphen, apostrophe or period characters and no leading, trailing or
consecutive space characters; and the result contains no uppercase letter for
every str input each of whose characters, once lowered, transliterates to an
uppercase-free string - which covers all ASCII and Latin-1 accented input.
The original universal no-uppercase property is refuted by the
counterexample: unidecode transliterates some symbols to strings containing
ASCII capitals, and clean_name propagates them verbatim because the lowering
step runs before transliteration. -/
theorem claim_C8 (v : PyVal) :
    (v = PyVal.nonstr → clean_name v = []) ∧
    (∀ c ∈ clean_name v, c ≠ '-' ∧ c ≠ apos ∧ c ≠ '.') ∧
    (∀ s, v = PyVal.str s →
      (∀ a ∈ s, ∀ d ∈ unidecodeChar (pyLower a), isUpperAscii d = false) →
      ∀ c ∈ clean_name v, isUpperAscii c = false) ∧
    (clean_name v).head? ≠ some ' ' ∧
    (clean_name v).getLast? ≠ some ' ' ∧
    noDoubleSpace (clean_name v) = true := by
  cases v with
  | nonstr =>
    refine ⟨fun _ => rfl, by simp [clean_name], ?_, by simp [clean_name],
      by simp [clean_name], rfl⟩
    intro s h
    simp at h
  | str s =>
    have hclean : clean_name (PyVal.str s) =
        joinSpace (pySplit (removeSub gareD (removeSub gareDe (removeDots (replaceApos
          (replaceDash ((pyStrip (s.map pyLower)).flatMap unidecodeChar))))))) := rfl
    have hpieces := pySplit_pieces (removeSub gareD (removeSub gareDe (removeDots (replaceApos
      (replaceDash ((pyStrip (s.map pyLower)).flatMap unidecodeChar))))))
    have hne := fun p hp => (hpieces p hp).1
    have hsp := fun p hp x hx => ne_space_of_not_ws ((hpieces p hp).2 x hx).1
    refine ⟨by simp, ?_, ?_, ?_, ?_, ?_⟩
    · intro c hc
      rw [hclean] at hc
      rcases mem_joinSpace _ _ hc with h | ⟨p, hp, hcp⟩
      · subst h
        exact ⟨by decide, by decide, by decide⟩
      · have hct7 : c ∈ removeSub gareD (removeSub gareDe (removeDots (replaceApos
            (replaceDash ((pyStrip (s.map pyLower)).flatMap unidecodeChar))))) :=
          ((hpieces p hp).2 c hcp).2
        have hct6 := mem_removeSub _ _ c hct7
        have hct5 := mem_removeSub _ _ c hct6
        exact good_after_dots s c hct5
    · intro s2 hv hsafe c hc
      injection hv with hv2
      subst hv2
      rw [hclean] at hc
      rcases mem_joinSpace _ _ hc with h | ⟨p, hp, hcp⟩
      · subst h
        decide
      · have hct7 : c ∈ removeSub gareD (removeSub gareDe (removeDots (replaceApos
            (replaceDash ((pyStrip (s.map pyLower)).flatMap unidecodeChar))))) :=
          ((hpieces p hp).2 c hcp).2
        have hct6 := mem_removeSub _ _ c hct7
        have hct5 := mem_removeSub _ _ c hct6
        exact upper_after_dots s hsafe c hct5
    · rw [hclean]
      exact head?_joinSpace _ hne hsp
    · rw [hclean]
      exact getLast?_joinSpace _ hne hsp
    · rw [hclean]
      exact nds_joinSpace _ hne hsp

/-- Witness for the amended claim C8: a non-str input maps to the empty
string. -/
theorem claim_C8_witness : clean_name PyVal.nonstr = [] :=
  (claim_C8 PyVal.nonstr).1 rfl

lemma clean_name_numero : clean_name (PyVal.str ['№']) = ['N', 'o'] := by
  have h5 : removeDots (replaceApos (replaceDash
      ((pyStrip (['№'].map pyLower)).flatMap unidecodeChar))) = ['N', 'o'] := by decide
  have h6 : removeSub gareDe ['N', 'o'] = ['N', 'o'] := by
    rw [removeSub, if_neg (by decide), removeSub, if_neg (by decide), removeSub]
  have h7 : removeSub gareD ['N', 'o'] = ['N', 'o'] := by
    rw [removeSub, if_neg (by decide), removeSub, if_neg (by decide), removeSub]
  have hshape : clean_name (PyVal.str ['№']) =
      joinSpace (pySplit (removeSub gareD (removeSub gareDe (removeDots (replaceApos
        (replaceDash ((pyStrip (['№'].map pyLower)).flatMap unidecodeChar))))))) := rfl
  rw [hshape, h5, h6, h7]
  decide

/-- Counterexample to the original claim C8: on the str input consisting of
the numero sign the program outputs "No", which contains the uppercase letter
N, because Python str.lower leaves the case-less numero sign unchanged,
unidecode then transliterates it to the capitalised string "No", and no later
step of clean_name lowercases. -/
theorem claim_C8_counterexample :
    ¬ ∀ c ∈ clean_name (PyVal.str ['№']), isUpperAscii c = false := by
  intro hall
  have h := hall 'N' (by rw [clean_name_numero]; exact List.mem_cons_self _ _)
  exact absurd h (by decide)
